import Mathlib

/-!
Verification of the chunk codec (PNG-style chunk and 4-byte chunk type).

Bytes of the Rust program (`u8`) are modelled as `Nat`; where a value's
8-bit or 32-bit range matters the reduction `% 256` / `% 4294967296` is
explicit.  Rust strings are modelled by the list of bytes of their UTF-8
encoding, which is exactly what `str::len` and `str::bytes` expose.
-/

namespace Png

/-- Error kinds of the codec, from the error-handling design.  The Rust
source uses `&'static str` messages for the implemented paths; the kinds
below name them. -/
inductive PngError where
  | TagLengthMismatch
  | TruncatedInput
  | ChecksumMismatch
  | NotUtf8
  | LengthOverflow
  deriving DecidableEq

deriving instance DecidableEq for Except

/-- A `u8` value, as a natural number. -/
abbrev Byte := Nat

/-- `u8::is_ascii_uppercase`. -/
def isAsciiUppercase (b : Byte) : Bool := 65 ≤ b && b ≤ 90

/-- `u8::is_ascii_lowercase`. -/
def isAsciiLowercase (b : Byte) : Bool := 97 ≤ b && b ≤ 122

/-- `u8::is_ascii_alphabetic`. -/
def isAsciiAlphabetic (b : Byte) : Bool := isAsciiUppercase b || isAsciiLowercase b

/-- `ChunkType` from `src/chunk_type.rs`: four `u8` fields.  The Rust
field `private` is renamed `priv2`, `private` being a Lean keyword. -/
structure ChunkType where
  ancillary : Byte
  priv2 : Byte
  reserved : Byte
  safe : Byte
  deriving DecidableEq

/-- `ChunkType::bytes`: the 4 raw bytes, in field order. -/
def ChunkType.bytes (t : ChunkType) : List Byte :=
  [t.ancillary, t.priv2, t.reserved, t.safe]

/-- `ChunkType::is_valid` exactly as written in the source:
`self.bytes().iter().all(|&b| b.is_ascii_alphabetic())`.  Note that the
source checks only alphabeticity; it never looks at the case of the
reserved byte. -/
def ChunkType.is_valid (t : ChunkType) : Bool :=
  t.bytes.all isAsciiAlphabetic

/-- `ChunkType::is_critical`. -/
def ChunkType.is_critical (t : ChunkType) : Bool := isAsciiUppercase t.ancillary

/-- `ChunkType::is_public`. -/
def ChunkType.is_public (t : ChunkType) : Bool := isAsciiUppercase t.priv2

/-- `ChunkType::is_reserved_bit_valid`. -/
def ChunkType.is_reserved_bit_valid (t : ChunkType) : Bool := isAsciiUppercase t.reserved

/-- `ChunkType::is_safe_to_copy`. -/
def ChunkType.is_safe_to_copy (t : ChunkType) : Bool := isAsciiLowercase t.safe

/-- `TryFrom<[u8;4]> for ChunkType`: reads the four entries of the array
and always answers `Ok`. -/
def ChunkType.tryFrom (b : Byte × Byte × Byte × Byte) : Except PngError ChunkType :=
  Except.ok ⟨b.1, b.2.1, b.2.2.1, b.2.2.2⟩

/-- One step of the byte iterator `s.bytes()`: `next()` yields the head
byte and the rest, or `None` when exhausted. -/
def nextByte (s : List Byte) : Option (Byte × List Byte) :=
  match s with
  | [] => none
  | b :: rest => some (b, rest)

/-- The four `bytes.next().unwrap()` calls of `FromStr for ChunkType`,
with the `unwrap`s kept fallible: `none` models a panic of `unwrap`. -/
def ChunkType.fromStrUnwraps (s : List Byte) : Option ChunkType := do
  let (a, s1) ← nextByte s
  let (p, s2) ← nextByte s1
  let (r, s3) ← nextByte s2
  let (c, _) ← nextByte s3
  pure ⟨a, p, r, c⟩

/-- `FromStr for ChunkType`, panic made explicit: the outer `Option` is
`none` exactly when one of the `unwrap` calls would panic.  The source
first rejects inputs whose encoded length is not 4, then reads four
bytes from the iterator. -/
def ChunkType.fromStrChecked (s : List Byte) : Option (Except PngError ChunkType) :=
  if s.length ≠ 4 then some (Except.error PngError.TagLengthMismatch)
  else (ChunkType.fromStrUnwraps s).map Except.ok

/-- `FromStr for ChunkType` as a plain function (the panic case, proved
unreachable below, is collapsed to an error). -/
def ChunkType.fromStr (s : List Byte) : Except PngError ChunkType :=
  (ChunkType.fromStrChecked s).getD (Except.error PngError.TagLengthMismatch)

/-- ASCII bytes of the decimal digits of `n`, most significant first;
auxiliary fuel-driven loop. -/
def decDigitsAux : Nat → Nat → List Byte
  | 0, _ => []
  | _ + 1, 0 => []
  | fuel + 1, n + 1 => decDigitsAux fuel ((n + 1) / 10) ++ [(n + 1) % 10 + 48]

/-- ASCII bytes of the decimal rendering of `n`, i.e. of `format!("{}", n)`
for an unsigned integer `n`. -/
def decimalBytes (n : Nat) : List Byte :=
  if n = 0 then [48] else decDigitsAux n n

/-- `Display for ChunkType` exactly as written in the source:
`write!(f, "{}{}{}{}", self.ancillary, self.private, self.reserved, self.safe)`.
The four fields are `u8` values, so `Display` renders each as its decimal
numeral, not as an ASCII character.  Output is the UTF-8 byte list of the
produced string. -/
def ChunkType.display (t : ChunkType) : List Byte :=
  decimalBytes t.ancillary ++ decimalBytes t.priv2 ++
    decimalBytes t.reserved ++ decimalBytes t.safe

/-- Modelled from the spec: the checksum capability required by the data
model — CRC-32/ISO-HDLC, reflected polynomial 0xEDB88320 — which the
source only names through the `crc` crate import (the using code,
`Chunk::new`, is a `todo!()` stub).  One bit-step of the reflected
algorithm. -/
def crc32Step (c : Nat) : Nat :=
  if c % 2 = 1 then (c / 2) ^^^ 0xEDB88320 else c / 2

/-- `k` bit-steps of the CRC register. -/
def crc32Rounds : Nat → Nat → Nat
  | 0, c => c
  | k + 1, c => crc32Rounds k (crc32Step c)

/-- Absorb one input byte into the CRC register. -/
def crc32Byte (c b : Nat) : Nat := crc32Rounds 8 (c ^^^ (b % 256))

/-- Modelled from the spec: CRC-32/ISO-HDLC over a byte sequence —
initial register 0xFFFFFFFF, final xor 0xFFFFFFFF. -/
def crc32 (l : List Byte) : Nat :=
  (l.foldl crc32Byte 0xFFFFFFFF) ^^^ 0xFFFFFFFF

/-- A `u32` value as a 4-byte big-endian list. -/
def be32 (n : Nat) : List Byte :=
  [n / 16777216 % 256, n / 65536 % 256, n / 256 % 256, n % 256]

/-- Read a big-endian `u32` from the first 4 bytes of a list (0 when the
list is shorter; callers check lengths first). -/
def readBE32 (l : List Byte) : Nat :=
  match l with
  | b0 :: b1 :: b2 :: b3 :: _ => b0 * 16777216 + b1 * 65536 + b2 * 256 + b3
  | _ => 0

/-- `Chunk` from `src/chunk.rs`: length, type, payload, checksum. -/
structure Chunk where
  length : Nat
  chunk_type : ChunkType
  data : List Byte
  crc : Nat
  deriving DecidableEq

/-- Modelled from the spec: the body of `Chunk::new` in `src/chunk.rs` is
a `todo!()` stub; the spec says construction always succeeds, with
`length = data.len()` and `crc = crc32(chunk_type.bytes() ++ data)`. -/
def Chunk.new (chunk_type : ChunkType) (data : List Byte) : Chunk :=
  { length := data.length
    chunk_type := chunk_type
    data := data
    crc := crc32 (chunk_type.bytes ++ data) }

/-- Modelled from the spec: the body of `Chunk::as_bytes` in
`src/chunk.rs` is a `todo!()` stub; the spec fixes the wire layout as
big-endian length, the 4 type bytes, the data verbatim, big-endian crc. -/
def Chunk.as_bytes (c : Chunk) : List Byte :=
  be32 c.length ++ c.chunk_type.bytes ++ c.data ++ be32 c.crc

/-- Modelled from the spec: the parse operation is absent from the source
(required companion to `as_bytes`); per the spec it reads the declared
length, type, data and stored checksum, fails with `TruncatedInput` when
the buffer is shorter than `12 + length`, and with `ChecksumMismatch`
when the recomputed CRC differs from the stored one. -/
def Chunk.parse (buf : List Byte) : Except PngError Chunk :=
  let len := readBE32 (buf.take 4)
  if buf.length < 12 + len then Except.error PngError.TruncatedInput
  else
    let tyBytes := (buf.drop 4).take 4
    let ty : ChunkType :=
      ⟨tyBytes.getD 0 0, tyBytes.getD 1 0, tyBytes.getD 2 0, tyBytes.getD 3 0⟩
    let rest := buf.drop 8
    let data := rest.take len
    let crcStored := readBE32 ((rest.drop len).take 4)
    if crc32 (ty.bytes ++ data) ≠ crcStored then Except.error PngError.ChecksumMismatch
    else Except.ok ⟨len, ty, data, crcStored⟩

/-- A Unicode scalar value: in range and not a UTF-16 surrogate. -/
def ValidCodepoint (c : Nat) : Prop := c < 1114112 ∧ ¬(55296 ≤ c ∧ c ≤ 57343)

instance (c : Nat) : Decidable (ValidCodepoint c) :=
  decidable_of_iff (c < 1114112 ∧ ¬(55296 ≤ c ∧ c ≤ 57343)) Iff.rfl

/-- UTF-8 encoding of one code point (1 to 4 bytes). -/
def utf8EncodeCp (c : Nat) : List Byte :=
  if c < 128 then [c]
  else if c < 2048 then [192 + c / 64, 128 + c % 64]
  else if c < 65536 then [224 + c / 4096, 128 + c / 64 % 64, 128 + c % 64]
  else [240 + c / 262144, 128 + c / 4096 % 64, 128 + c / 64 % 64, 128 + c % 64]

/-- UTF-8 encoding of a sequence of code points; a Rust `String` is
modelled by its code points, its byte representation by this encoding. -/
def utf8Encode : List Nat → List Byte
  | [] => []
  | c :: rest => utf8EncodeCp c ++ utf8Encode rest

/-- One step of strict UTF-8 decoding (RFC 3629): reads one code point
from the front, rejecting continuation or overlong lead bytes, truncated
or malformed sequences, surrogates and code points past 0x10FFFF. -/
def utf8Step : List Byte → Option (Nat × List Byte) := fun l =>
  match l with
  | [] => none
  | b0 :: rest =>
    if b0 < 128 then some (b0, rest)
    else if b0 < 194 then none
    else if b0 < 224 then
      match rest with
      | b1 :: rest2 =>
        if 128 ≤ b1 ∧ b1 < 192 then some ((b0 - 192) * 64 + (b1 - 128), rest2)
        else none
      | [] => none
    else if b0 < 240 then
      match rest with
      | b1 :: b2 :: rest3 =>
        let cp := (b0 - 224) * 4096 + (b1 - 128) * 64 + (b2 - 128)
        if 128 ≤ b1 ∧ b1 < 192 ∧ 128 ≤ b2 ∧ b2 < 192 ∧ 2048 ≤ cp ∧
            ¬(55296 ≤ cp ∧ cp ≤ 57343) then some (cp, rest3)
        else none
      | _ => none
    else if b0 < 245 then
      match rest with
      | b1 :: b2 :: b3 :: rest4 =>
        let cp := (b0 - 240) * 262144 + (b1 - 128) * 4096 + (b2 - 128) * 64 + (b3 - 128)
        if 128 ≤ b1 ∧ b1 < 192 ∧ 128 ≤ b2 ∧ b2 < 192 ∧ 128 ≤ b3 ∧ b3 < 192 ∧
            65536 ≤ cp ∧ cp < 1114112 then some (cp, rest4)
        else none
      | _ => none
    else none

/-- Iterate `utf8Step`; the fuel bounds the number of code points, and
each step consumes at least one byte, so the input length is always
enough fuel. -/
def utf8DecodeAux : Nat → List Byte → Option (List Nat)
  | _, [] => some []
  | 0, _ :: _ => none
  | fuel + 1, b0 :: rest =>
    match utf8Step (b0 :: rest) with
    | some (cp, rest2) => (utf8DecodeAux fuel rest2).map (fun l => cp :: l)
    | none => none

/-- Strict UTF-8 decoding of a byte sequence; `none` means the bytes are
not well-formed UTF-8. -/
def utf8Decode (l : List Byte) : Option (List Nat) := utf8DecodeAux l.length l

/-- Modelled from the spec: the body of `Chunk::data_as_string` in
`src/chunk.rs` is a `todo!()` stub; the spec says it interprets `data` as
UTF-8 text and fails with the not-valid-text error kind otherwise.  The
returned text is modelled by its list of code points. -/
def Chunk.data_as_string (c : Chunk) : Except PngError (List Nat) :=
  match utf8Decode c.data with
  | some cps => Except.ok cps
  | none => Except.error PngError.NotUtf8

end Png

namespace Png

/-- 4294967296 is 2 to the 32nd. -/
theorem u32_size_eq : (4294967296 : Nat) = 2 ^ 32 := by norm_num

/-- Xor of two 32-bit values is a 32-bit value. -/
theorem xor_lt_u32 {x y : Nat} (hx : x < 4294967296) (hy : y < 4294967296) :
    x ^^^ y < 4294967296 := by
  rw [u32_size_eq] at hx hy ⊢
  exact Nat.xor_lt_two_pow hx hy

/-- One CRC bit-step keeps the register below 2 to the 32nd. -/
theorem crc32Step_lt {c : Nat} (h : c < 4294967296) : crc32Step c < 4294967296 := by
  unfold crc32Step
  split
  · exact xor_lt_u32 (by omega) (by norm_num)
  · omega

/-- CRC rounds keep the register below 2 to the 32nd. -/
theorem crc32Rounds_lt : ∀ (k : Nat) {c : Nat}, c < 4294967296 →
    crc32Rounds k c < 4294967296
  | 0, _, h => h
  | k + 1, _, h => crc32Rounds_lt k (crc32Step_lt h)

/-- Absorbing a byte keeps the register below 2 to the 32nd. -/
theorem crc32Byte_lt {c : Nat} (b : Nat) (h : c < 4294967296) :
    crc32Byte c b < 4294967296 :=
  crc32Rounds_lt 8 (xor_lt_u32 h (by omega))

/-- The CRC fold keeps the register below 2 to the 32nd. -/
theorem foldl_crc32Byte_lt : ∀ (l : List Byte) {c : Nat}, c < 4294967296 →
    l.foldl crc32Byte c < 4294967296
  | [], _, h => h
  | b :: rest, _, h => foldl_crc32Byte_lt rest (crc32Byte_lt b h)

/-- The CRC-32 checksum is a 32-bit value. -/
theorem crc32_lt (l : List Byte) : crc32 l < 4294967296 :=
  xor_lt_u32 (foldl_crc32Byte_lt l (by norm_num)) (by norm_num)

/-- Reading back a big-endian encoded 32-bit value recovers it. -/
theorem readBE32_be32 {n : Nat} (h : n < 4294967296) : readBE32 (be32 n) = n := by
  simp only [be32, readBE32]
  omega

/-- The serialization starts with the big-endian data length. -/
theorem as_bytes_take4 (t : ChunkType) (d : List Byte) :
    ((Chunk.new t d).as_bytes).take 4 = be32 d.length := rfl

/-- Bytes 4 to 7 of the serialization are the type bytes. -/
theorem as_bytes_drop4_take4 (t : ChunkType) (d : List Byte) :
    (((Chunk.new t d).as_bytes).drop 4).take 4 = t.bytes := rfl

/-- Bytes from offset 8 of the serialization are the data then the
big-endian checksum. -/
theorem as_bytes_drop8 (t : ChunkType) (d : List Byte) :
    ((Chunk.new t d).as_bytes).drop 8 = d ++ be32 (crc32 (t.bytes ++ d)) := rfl

/-- The serialization of a fresh chunk has 12 + data-length bytes. -/
theorem as_bytes_new_length (t : ChunkType) (d : List Byte) :
    ((Chunk.new t d).as_bytes).length = 12 + d.length := by
  simp [Chunk.new, Chunk.as_bytes, be32, ChunkType.bytes]
  omega

/-- Taking 4 from a 4-byte big-endian encoding is the whole encoding. -/
theorem take4_be32 (n : Nat) : (be32 n).take 4 = be32 n := rfl

/-- Claim C1.  The claim states that `is_valid` holds iff all 4 bytes are
ASCII alphabetic and the reserved byte is uppercase, and in particular that
the tag "Rust" (bytes 82,117,115,116, reserved byte 115 = lowercase s) is
invalid.  The code disagrees: its `is_valid` tests alphabeticity only, so
"Rust" is reported valid, contradicting the repository's own test
`test_invalid_chunk_is_valid`.  This theorem evaluates the code at the
failing input. -/
theorem chunkType_is_valid_ignores_reserved_byte :
    (ChunkType.mk 82 117 115 116).is_valid = true ∧
      isAsciiUppercase 115 = false ∧
      (ChunkType.mk 82 117 115 116).bytes.all isAsciiAlphabetic = true := by
  decide

/-- Claim C2.  The claim states `to_string(from_str(s)) = s` for 4-character
ASCII tags.  The code disagrees: `Display for ChunkType` formats the four
`u8` fields with numeric formatting, so the tag "RuSt" (bytes 82,117,83,116)
renders as the decimal string "8211783116" (bytes 56,50,49,49,55,56,51,49,49,54),
contradicting the repository's own test `test_chunk_type_string`.  This
theorem evaluates the code at the failing input. -/
theorem chunkType_display_is_decimal_not_roundtrip :
    ChunkType.fromStr [82, 117, 83, 116] = Except.ok (ChunkType.mk 82 117 83 116) ∧
      (ChunkType.mk 82 117 83 116).display =
        [56, 50, 49, 49, 55, 56, 51, 49, 49, 54] ∧
      (ChunkType.mk 82 117 83 116).display ≠ [82, 117, 83, 116] := by
  decide

/-- Claim C7: the textual constructor fails with the length-mismatch error
exactly when the encoded input is not 4 bytes long; on every 4-byte input
it succeeds and stores the 4 encoded bytes verbatim, with no content check
(the tag "Ru1t" = bytes 82,117,49,116 is accepted and later reported
invalid by `is_valid`). -/
theorem chunkType_fromStr_length_check (s : List Byte) (h : s.length = 4) :
    (∀ s2 : List Byte, s2.length ≠ 4 →
        ChunkType.fromStr s2 = Except.error PngError.TagLengthMismatch) ∧
      (∃ t : ChunkType, ChunkType.fromStr s = Except.ok t ∧ t.bytes = s) ∧
      ChunkType.fromStr [82, 117, 49, 116] = Except.ok (ChunkType.mk 82 117 49 116) ∧
      (ChunkType.mk 82 117 49 116).is_valid = false := by
  refine ⟨?_, ?_, by decide, by decide⟩
  · intro s2 h2
    simp [ChunkType.fromStr, ChunkType.fromStrChecked, h2]
  · match s, h with
    | [a, p, r, c], _ =>
      exact ⟨⟨a, p, r, c⟩, rfl, rfl⟩

/-- Witness for C7 at the concrete tag "Ru1t". -/
theorem chunkType_fromStr_length_check_instance :
    ([82, 117, 49, 116] : List Byte).length = 4 ∧
      ∃ t : ChunkType, ChunkType.fromStr [82, 117, 49, 116] = Except.ok t ∧
        t.bytes = [82, 117, 49, 116] :=
  ⟨by decide, (chunkType_fromStr_length_check [82, 117, 49, 116] (by decide)).2.1⟩

/-- Claim C8: construction from 4 raw bytes always succeeds, no byte value
is rejected, and `bytes` on the result returns exactly the input bytes in
order. -/
theorem chunkType_tryFrom_stores_bytes (b : Byte × Byte × Byte × Byte) :
    ∃ t : ChunkType, ChunkType.tryFrom b = Except.ok t ∧
      t.bytes = [b.1, b.2.1, b.2.2.1, b.2.2.2] :=
  ⟨⟨b.1, b.2.1, b.2.2.1, b.2.2.2⟩, rfl, rfl⟩

/-- Claim C9: `is_critical`, `is_public`, `is_reserved_bit_valid` test the
uppercase bit of bytes 1, 2, 3 and `is_safe_to_copy` the lowercase bit of
byte 4; each is total and returns `false` when its byte is not
alphabetic. -/
theorem chunkType_flag_predicates (t : ChunkType) :
    (t.is_critical = true ↔ isAsciiUppercase t.ancillary = true) ∧
      (t.is_public = true ↔ isAsciiUppercase t.priv2 = true) ∧
      (t.is_reserved_bit_valid = true ↔ isAsciiUppercase t.reserved = true) ∧
      (t.is_safe_to_copy = true ↔ isAsciiLowercase t.safe = true) ∧
      (isAsciiAlphabetic t.ancillary = false → t.is_critical = false) ∧
      (isAsciiAlphabetic t.priv2 = false → t.is_public = false) ∧
      (isAsciiAlphabetic t.reserved = false → t.is_reserved_bit_valid = false) ∧
      (isAsciiAlphabetic t.safe = false → t.is_safe_to_copy = false) := by
  obtain ⟨a, p, r, c⟩ := t
  refine ⟨Iff.rfl, Iff.rfl, Iff.rfl, Iff.rfl, ?_, ?_, ?_, ?_⟩ <;>
    · intro h
      simp only [isAsciiAlphabetic, Bool.or_eq_false_iff] at h
      first
      | exact h.1
      | exact h.2

/-- Witness for C9 at the all-digits tag "0000" (48 is not alphabetic). -/
theorem chunkType_flag_predicates_instance :
    (ChunkType.mk 48 48 48 48).is_critical = false :=
  (chunkType_flag_predicates (ChunkType.mk 48 48 48 48)).2.2.2.2.1 (by decide)

/-- Claim C10: the textual constructor never panics — with the `unwrap`
panics modelled as the `none` of the outer `Option`, the checked
constructor is `some` on every input, because the four iterator reads are
only reached once the length-4 check has passed. -/
theorem chunkType_fromStr_never_panics (s : List Byte) :
    (ChunkType.fromStrChecked s).isSome = true := by
  unfold ChunkType.fromStrChecked
  by_cases h : s.length = 4
  · have h4 : ¬s.length ≠ 4 := by omega
    rw [if_neg h4]
    match s, h with
    | [a, p, r, c], _ => rfl
  · rw [if_pos h]
    rfl

set_option maxRecDepth 8192 in
/-- Claim C3: `Chunk::new` always succeeds with `length = data.len()` and
`crc` the CRC-32/ISO-HDLC checksum of the type bytes followed by the data
(the model's checksum is pinned to the ISO-HDLC variant by the standard
check value on the ASCII bytes of "123456789"); and every Chunk, whether
built by `new` or by parsing, satisfies `length = data.len()`. -/
theorem chunk_new_length_and_crc (t : ChunkType) (d : List Byte)
    (buf : List Byte) (c : Chunk) (h : Chunk.parse buf = Except.ok c) :
    (Chunk.new t d).length = d.length ∧
      (Chunk.new t d).crc = crc32 (t.bytes ++ d) ∧
      (Chunk.new t d).length = (Chunk.new t d).data.length ∧
      c.length = c.data.length ∧
      crc32 [49, 50, 51, 52, 53, 54, 55, 56, 57] = 0xCBF43926 := by
  refine ⟨rfl, rfl, rfl, ?_, by decide⟩
  simp only [Chunk.parse] at h
  split at h
  · simp at h
  · split at h
    · simp at h
    · rename_i hlen _
      injection h with h2
      subst h2
      simp only [List.length_take, List.length_drop]
      omega

set_option maxRecDepth 8192 in
/-- Witness for C3: a concrete chunk parsed back from a concrete buffer. -/
theorem chunk_new_length_and_crc_instance :
    (Chunk.new (ChunkType.mk 82 117 83 116) [1, 2, 3]).length = 3 :=
  (chunk_new_length_and_crc (ChunkType.mk 82 117 83 116) [1, 2, 3]
    ((Chunk.new (ChunkType.mk 82 117 83 116) []).as_bytes)
    (Chunk.new (ChunkType.mk 82 117 83 116) []) (by decide)).1

/-- Claim C4: `as_bytes` is exactly big-endian length, the 4 raw type
bytes, the data verbatim, and big-endian crc, for a total of
12 + data-length bytes. -/
theorem chunk_as_bytes_layout (c : Chunk) :
    c.as_bytes = be32 c.length ++ c.chunk_type.bytes ++ c.data ++ be32 c.crc ∧
      c.as_bytes.length = 12 + c.data.length := by
  refine ⟨rfl, ?_⟩
  simp [Chunk.as_bytes, be32, ChunkType.bytes]
  omega

/-- Claim C5: for any type tag and any data whose length fits in 32 bits,
parsing the serialization of a freshly built chunk succeeds and returns
that very chunk (same type, data and crc). -/
theorem chunk_parse_as_bytes_roundtrip (t : ChunkType) (d : List Byte)
    (h : d.length < 4294967296) :
    Chunk.parse ((Chunk.new t d).as_bytes) = Except.ok (Chunk.new t d) := by
  have hcrc := crc32_lt (t.bytes ++ d)
  simp only [Chunk.parse]
  rw [as_bytes_take4, readBE32_be32 h, as_bytes_new_length, if_neg (by omega)]
  rw [as_bytes_drop4_take4, as_bytes_drop8]
  rw [List.take_left, List.drop_left, take4_be32, readBE32_be32 hcrc]
  obtain ⟨a, p, r, s⟩ := t
  rw [if_neg (by simp [ChunkType.bytes])]
  simp [ChunkType.bytes, Chunk.new]

/-- Witness for C5 at a concrete type tag and payload. -/
theorem chunk_parse_as_bytes_roundtrip_instance :
    Chunk.parse ((Chunk.new (ChunkType.mk 82 117 83 116) [1, 2, 3]).as_bytes) =
      Except.ok (Chunk.new (ChunkType.mk 82 117 83 116) [1, 2, 3]) :=
  chunk_parse_as_bytes_roundtrip (ChunkType.mk 82 117 83 116) [1, 2, 3] (by decide)

/-- A successful UTF-8 step consumes at least one byte. -/
theorem utf8Step_shorter : ∀ {l : List Byte} {cp : Nat} {rest2 : List Byte},
    utf8Step l = some (cp, rest2) → rest2.length < l.length := by
  intro l cp rest2 h
  match l with
  | [] => simp [utf8Step] at h
  | b0 :: rest =>
    simp only [utf8Step] at h
    repeat' split at h
    all_goals simp_all
    all_goals omega

/-- Unfolding of the fuelled decoder on a nonempty list with nonzero
fuel. -/
theorem utf8DecodeAux_cons (f : Nat) (b0 : Byte) (rest : List Byte) :
    utf8DecodeAux (f + 1) (b0 :: rest) =
      match utf8Step (b0 :: rest) with
      | some (cp, rest2) => (utf8DecodeAux f rest2).map (fun l => cp :: l)
      | none => none := rfl

/-- The result of the fuelled decoder does not depend on the fuel, as
long as the fuel covers the input length. -/
theorem utf8DecodeAux_fuel : ∀ (f1 f2 : Nat) (l : List Byte),
    l.length ≤ f1 → l.length ≤ f2 → utf8DecodeAux f1 l = utf8DecodeAux f2 l := by
  intro f1
  induction f1 with
  | zero =>
    intro f2 l h1 _
    have : l = [] := List.eq_nil_of_length_eq_zero (by omega)
    subst this
    cases f2 <;> rfl
  | succ f ih =>
    intro f2 l h1 h2
    match l with
    | [] => cases f2 <;> rfl
    | b0 :: rest =>
      match f2 with
      | 0 => simp at h2
      | g + 1 =>
        rw [utf8DecodeAux_cons f, utf8DecodeAux_cons g]
        cases hs : utf8Step (b0 :: rest) with
        | none => rfl
        | some pr =>
          obtain ⟨cp, rest2⟩ := pr
          have hlt := utf8Step_shorter hs
          simp only [List.length_cons] at hlt h1 h2
          show (utf8DecodeAux f rest2).map (fun l => cp :: l) =
            (utf8DecodeAux g rest2).map (fun l => cp :: l)
          exact congrArg (Option.map fun l => cp :: l) (ih g rest2 (by omega) (by omega))

/-- A valid code point's encoding followed by any tail: the UTF-8 step
reads back exactly that code point and leaves the tail. -/
theorem utf8Step_encodeCp (c : Nat) (l : List Byte) (h : ValidCodepoint c) :
    utf8Step (utf8EncodeCp c ++ l) = some (c, l) := by
  obtain ⟨h1, h2⟩ := h
  by_cases hc1 : c < 128
  · have e : utf8EncodeCp c = [c] := by rw [utf8EncodeCp, if_pos hc1]
    rw [e, List.cons_append, List.nil_append]
    simp only [utf8Step]
    rw [if_pos hc1]
  · by_cases hc2 : c < 2048
    · have e : utf8EncodeCp c = [192 + c / 64, 128 + c % 64] := by
        rw [utf8EncodeCp, if_neg hc1, if_pos hc2]
      have n1 : ¬(192 + c / 64 < 128) := by omega
      have n2 : ¬(192 + c / 64 < 194) := by omega
      have p3 : 192 + c / 64 < 224 := by omega
      have p4 : 128 ≤ 128 + c % 64 ∧ 128 + c % 64 < 192 := by omega
      rw [e, List.cons_append, List.cons_append, List.nil_append]
      simp only [utf8Step]
      rw [if_neg n1, if_neg n2, if_pos p3, if_pos p4]
      have heq : (192 + c / 64 - 192) * 64 + (128 + c % 64 - 128) = c := by omega
      rw [heq]
    · by_cases hc3 : c < 65536
      · have e : utf8EncodeCp c = [224 + c / 4096, 128 + c / 64 % 64, 128 + c % 64] := by
          rw [utf8EncodeCp, if_neg hc1, if_neg hc2, if_pos hc3]
        have n1 : ¬(224 + c / 4096 < 128) := by omega
        have n2 : ¬(224 + c / 4096 < 194) := by omega
        have n3 : ¬(224 + c / 4096 < 224) := by omega
        have p4 : 224 + c / 4096 < 240 := by omega
        have m1 : 224 + c / 4096 - 224 = c / 4096 := by omega
        have m2 : 128 + c / 64 % 64 - 128 = c / 64 % 64 := by omega
        have m3 : 128 + c % 64 - 128 = c % 64 := by omega
        have heq : c / 4096 * 4096 + c / 64 % 64 * 64 + c % 64 = c := by omega
        rw [e, List.cons_append, List.cons_append, List.cons_append, List.nil_append]
        simp only [utf8Step]
        rw [if_neg n1, if_neg n2, if_neg n3, if_pos p4]
        simp only [m1, m2, m3, heq]
        have pcond : 128 ≤ 128 + c / 64 % 64 ∧ 128 + c / 64 % 64 < 192 ∧
            128 ≤ 128 + c % 64 ∧ 128 + c % 64 < 192 ∧ 2048 ≤ c ∧
            ¬(55296 ≤ c ∧ c ≤ 57343) :=
          ⟨by omega, by omega, by omega, by omega, by omega, h2⟩
        rw [if_pos pcond]
      · have e : utf8EncodeCp c =
            [240 + c / 262144, 128 + c / 4096 % 64, 128 + c / 64 % 64, 128 + c % 64] := by
          rw [utf8EncodeCp, if_neg hc1, if_neg hc2, if_neg hc3]
        have n1 : ¬(240 + c / 262144 < 128) := by omega
        have n2 : ¬(240 + c / 262144 < 194) := by omega
        have n3 : ¬(240 + c / 262144 < 224) := by omega
        have n4 : ¬(240 + c / 262144 < 240) := by omega
        have p5 : 240 + c / 262144 < 245 := by omega
        have m1 : 240 + c / 262144 - 240 = c / 262144 := by omega
        have m2 : 128 + c / 4096 % 64 - 128 = c / 4096 % 64 := by omega
        have m3 : 128 + c / 64 % 64 - 128 = c / 64 % 64 := by omega
        have m4 : 128 + c % 64 - 128 = c % 64 := by omega
        have heq : c / 262144 * 262144 + c / 4096 % 64 * 4096 + c / 64 % 64 * 64 + c % 64
            = c := by omega
        rw [e, List.cons_append, List.cons_append, List.cons_append, List.cons_append,
          List.nil_append]
        simp only [utf8Step]
        rw [if_neg n1, if_neg n2, if_neg n3, if_neg n4, if_pos p5]
        simp only [m1, m2, m3, m4, heq]
        have pcond : 128 ≤ 128 + c / 4096 % 64 ∧ 128 + c / 4096 % 64 < 192 ∧
            128 ≤ 128 + c / 64 % 64 ∧ 128 + c / 64 % 64 < 192 ∧
            128 ≤ 128 + c % 64 ∧ 128 + c % 64 < 192 ∧
            65536 ≤ c ∧ c < 1114112 :=
          ⟨by omega, by omega, by omega, by omega, by omega, by omega, by omega, h1⟩
        rw [if_pos pcond]

/-- Decoding the encoding of one valid code point in front of any byte
tail peels off exactly that code point. -/
theorem utf8Decode_encodeCp_append (c : Nat) (l : List Byte) (h : ValidCodepoint c) :
    utf8Decode (utf8EncodeCp c ++ l) = (utf8Decode l).map (fun cps => c :: cps) := by
  have hstep := utf8Step_encodeCp c l h
  have hne : utf8EncodeCp c ≠ [] := by
    unfold utf8EncodeCp
    repeat' split
    all_goals simp
  match e : utf8EncodeCp c with
  | [] => exact absurd e hne
  | b0 :: tl =>
    rw [e, List.cons_append] at hstep
    rw [List.cons_append]
    unfold utf8Decode
    rw [List.length_cons]
    rw [utf8DecodeAux_cons, hstep]
    show (utf8DecodeAux (tl ++ l).length l).map (fun cps => c :: cps) =
      (utf8DecodeAux l.length l).map (fun cps => c :: cps)
    exact congrArg (Option.map fun cps => c :: cps)
      (utf8DecodeAux_fuel (tl ++ l).length l.length l
        (by rw [List.length_append]; omega) (by omega))

/-- Decoding the encoding of a sequence of valid code points recovers the
sequence. -/
theorem utf8Decode_utf8Encode (cps : List Nat) (h : ∀ c ∈ cps, ValidCodepoint c) :
    utf8Decode (utf8Encode cps) = some cps := by
  induction cps with
  | nil => rfl
  | cons c rest ih =>
    rw [utf8Encode, utf8Decode_encodeCp_append c _ (h c (by simp)),
      ih (fun x hx => h x (by simp [hx]))]
    rfl

/-- Claim C6: `data_as_string` decodes well-formed UTF-8 data — a chunk
built from the encoding of a text returns that text — and fails with the
`NotUtf8` error kind exactly when the data is not well-formed UTF-8; a
lone 0xFF byte is rejected. -/
theorem chunk_data_as_string_utf8 (t : ChunkType) (cps : List Nat)
    (h : ∀ c ∈ cps, ValidCodepoint c) :
    (Chunk.new t (utf8Encode cps)).data_as_string = Except.ok cps ∧
      (∀ d : List Byte,
        ((Chunk.new t d).data_as_string = Except.error PngError.NotUtf8 ↔
          utf8Decode d = none)) ∧
      (Chunk.new t [255]).data_as_string = Except.error PngError.NotUtf8 := by
  refine ⟨?_, ?_, rfl⟩
  · show (match utf8Decode (utf8Encode cps) with
      | some cps2 => Except.ok cps2
      | none => Except.error PngError.NotUtf8) = Except.ok cps
    rw [utf8Decode_utf8Encode cps h]
  · intro d
    show (match utf8Decode d with
      | some cps2 => Except.ok cps2
      | none => Except.error PngError.NotUtf8) = Except.error PngError.NotUtf8 ↔
        utf8Decode d = none
    cases hd : utf8Decode d <;> simp

/-- Witness for C6 on the text "Hi" followed by a 2-, 3- and 4-byte
character. -/
theorem chunk_data_as_string_utf8_instance :
    (∀ c ∈ [72, 105, 233, 20013, 128512], ValidCodepoint c) ∧
      (Chunk.new (ChunkType.mk 82 117 83 116)
          (utf8Encode [72, 105, 233, 20013, 128512])).data_as_string =
        Except.ok [72, 105, 233, 20013, 128512] :=
  ⟨by decide,
    (chunk_data_as_string_utf8 (ChunkType.mk 82 117 83 116)
      [72, 105, 233, 20013, 128512] (by decide)).1⟩

end Png
